import Mathlib

/-!
Shallow embedding of the interception core of the evilginx2 goproxy fork:
the per-request context (`ProxyCtx`), the manual transport sender
(`sendRequestManually`), the header sanitizer (`removeProxyHeaders`), the
request/response filter chains (`filterRequest`, `filterResponse`) and the
dispatcher (`ServeHTTP`), translated from
`src/vendor/github.com/elazarl/goproxy/proxy.go` and the companion context
file (`src/unnamed/part_000`, package goproxy).

Modelling conventions:
* Go `http.Header` (a `map[string][]string`) is a list of
  `(name, values)` entries with distinct names; because Go map iteration
  order is unspecified, every operation that iterates a header map takes the
  iteration order as an explicit `List String` parameter (a permutation of
  the keys).  Header names are assumed to be stored in canonical MIME form,
  which is what the Go code guarantees before the modelled operations run.
* Pointer mutation of the `*http.Request` is modelled by returning the
  updated request value; the network is an oracle (`Network`) saying whether
  the dial succeeds and what `http.ReadResponse` yields.
* A Go nil-pointer dereference is modelled as `Except.error ()`.
* Response body objects are identified by a numeric identity token
  (`body : Nat`), which models Go reference identity (`origBody != resp.Body`).
* Control flow of the dispatcher is made observable through a trace of
  events (`Ev`): which filters ran and with which input, whether the header
  sanitizer ran, whether the transport sender was invoked, and whether the
  websocket delegation happened.
-/

/-- Ordered multimap modelling Go `http.Header` (`map[string][]string`).
The entry list order is irrelevant to map semantics; iteration order is
always an explicit parameter. -/
structure Header where
  entries : List (String × List String)
  deriving DecidableEq

/-- `http.Header.Get`: first value stored under the key, `""` when absent
(also `""` when the stored value list is empty, as in Go textproto). -/
def Header.get (h : Header) (k : String) : String :=
  match h.entries.lookup k with
  | some (v :: _) => v
  | _ => ""

/-- All values stored under the key (Go `h[k]`). -/
def Header.lookupValues (h : Header) (k : String) : List String :=
  match h.entries.lookup k with
  | some vs => vs
  | none => []

/-- `http.Header.Del`. -/
def Header.del (h : Header) (k : String) : Header :=
  ⟨h.entries.filter (fun e => !(e.1 == k))⟩

/-- `http.Header.Set`: replace all values of the key by a single value
(`h[key] = []string{value}`).  In the list rendering of the map the entry
keeps its position when present and is appended otherwise. -/
def Header.set (h : Header) (k v : String) : Header :=
  if h.entries.any (fun e => e.1 == k) then
    ⟨h.entries.map (fun e => if e.1 == k then (k, [v]) else e)⟩
  else
    ⟨h.entries ++ [(k, [v])]⟩

/-- The key set of the header map (iteration orders range over its
permutations). -/
def Header.keys (h : Header) : List String :=
  h.entries.map Prod.fst

/-- The slice of `net/url.URL` needed by the modelled code (no `Opaque`,
no `ForceQuery`; `path` is taken to be the already-escaped path). -/
structure URL where
  scheme : String
  host : String
  path : String
  rawQuery : String
  deriving DecidableEq

/-- Go `net/url` `validOptionalPort`: `""`, or `":"` followed by digits. -/
def validOptionalPort (p : List Char) : Bool :=
  match p with
  | [] => true
  | ':' :: digits => digits.all (fun c => decide ('0' ≤ c) && decide (c ≤ '9'))
  | _ => false

/-- Index of the last `':'` in the character list, if any. -/
def lastColonIdx (cs : List Char) : Option Nat :=
  match cs.reverse.findIdx? (fun c => c == ':') with
  | none => none
  | some i => some (cs.length - 1 - i)

/-- Go `net/url` `splitHostPort`, host component: strip a valid `:port`
suffix, then strip enclosing IPv6 brackets. -/
def splitHostPortHost (hostPort : String) : String :=
  let cs := hostPort.toList
  let host :=
    match lastColonIdx cs with
    | some colon => if validOptionalPort (cs.drop colon) then cs.take colon else cs
    | none => cs
  let host :=
    if host.head? == some '[' && host.getLast? == some ']' then
      (host.drop 1).dropLast
    else host
  String.mk host

/-- `url.URL.Hostname()`. -/
def URL.hostname (u : URL) : String :=
  splitHostPortHost u.host

/-- `url.URL.RequestURI()` restricted to the modelled URL fields:
path (defaulting to `/`) plus optional `?query`. -/
def URL.requestURI (u : URL) : String :=
  let p := if u.path = "" then "/" else u.path
  if u.rawQuery = "" then p else p ++ "?" ++ u.rawQuery

/-- The slice of `http.Request` used by the code: method, parsed URL,
header map, the `Close` (close-after-response) flag and the raw
`RequestURI` field that `removeProxyHeaders` clears. -/
structure Request where
  method : String
  url : URL
  header : Header
  close : Bool
  requestURI : String
  deriving DecidableEq

/-- The slice of `http.Response` used by the code; `body` is an identity
token for the body object (`io.ReadCloser` reference identity). -/
structure Response where
  status : String
  statusCode : Nat
  header : Header
  body : Nat
  deriving DecidableEq

/-- `ProxyCtx` (from the context file).  The `Proxy` back-reference and
`UserData`/`certStore` slots are not modelled (no claim consults them, and
a back-reference to the server would make the type non-positive).  The
pluggable `RoundTripper` is modelled as an optional sending function; the
Go interface also receives the context, which is dropped here for the same
positivity reason — the compiled code never invokes it anyway. -/
structure ProxyCtx where
  Req : Request
  Resp : Option Response := none
  RoundTripper : Option (Request → Except String Response) := none
  Error : Option String := none
  Session : Int := 0

/-- Leftmost occurrence of `charset=` followed by the greedy capture
`[^ ;]*`, i.e. the regular-expression `charset=([^ ;]*)` submatch. -/
def findCharsetAux : List Char → Option (List Char)
  | [] => none
  | c :: cs =>
    if ("charset=".toList).isPrefixOf (c :: cs) then
      some ((List.drop 8 (c :: cs)).takeWhile (fun ch => !(ch == ' ') && !(ch == ';')))
    else
      findCharsetAux cs

/-- `ProxyCtx.Charset`: applies `charsetFinder` to
`ctx.Resp.Header.Get("Content-Type")`.  When `ctx.Resp` is nil the Go code
dereferences a nil pointer and panics, modelled as `Except.error ()`.
When the pattern does not match it returns `""`. -/
def ProxyCtx.Charset (ctx : ProxyCtx) : Except Unit String :=
  match ctx.Resp with
  | none => .error ()
  | some resp =>
    match findCharsetAux (resp.header.get "Content-Type").toList with
    | none => .ok ""
    | some g => .ok (String.mk g)

/-- Network oracle for one outbound send: whether the dial succeeds, the
iteration order the Go runtime happens to use for the header map on this
send, and what `http.ReadResponse` yields on the opened connection. -/
structure Network where
  dialOk : Bool
  keyOrder : List String
  readResponse : Except String Response

/-- The request line `METHOD request-target HTTP/1.1\r\n` written by
`sendRequestManually`. -/
def requestLine (req : Request) : String :=
  req.method ++ " " ++ req.url.requestURI ++ " HTTP/1.1\r\n"

/-- The header lines written by the nested loops
`for name, values := range req.Header { for _, value := range values }`,
for a given key iteration order: one `name: value\r\n` line per value,
values of one name in stored order. -/
def headerLines (h : Header) (order : List String) : List String :=
  order.flatMap (fun name => (h.lookupValues name).map (fun v => name ++ ": " ++ v ++ "\r\n"))

/-- Result of one `sendRequestManually` call: the request object after the
call (the function mutates it in place), the returned response or error,
and — when the dial succeeded — the bytes written on the wire together with
the header-line segment of those bytes. -/
structure SendResult where
  req : Request
  result : Except String Response
  wrote : Option String
  wroteLines : Option (List String)

/-- `sendRequestManually` (context file, lines 58–109): set the `Host`
header from the URL hostname, append a default port to the URL host when it
has no `':'`, dial, write the request line, the header lines in the map
iteration order and a blank line, then read one response.  The request
mutations happen before any I/O and are never rolled back. -/
def sendRequestManually (net : Network) (req : Request) : SendResult :=
  let req := { req with header := req.header.set "Host" req.url.hostname }
  let req :=
    if !(req.url.host.toList.contains ':') then
      { req with url := { req.url with
          host := req.url.host ++ (if req.url.scheme = "https" then ":443" else ":80") } }
    else req
  if !net.dialOk then
    { req := req, result := .error "dial error", wrote := none, wroteLines := none }
  else
    let lines := headerLines req.header net.keyOrder
    let wire := requestLine req ++ String.join lines ++ "\r\n"
    match net.readResponse with
    | .error e => { req := req, result := .error e, wrote := some wire, wroteLines := some lines }
    | .ok resp => { req := req, result := .ok resp, wrote := some wire, wroteLines := some lines }

/-- `ProxyCtx.RoundTrip` (context file, lines 48–55): the dispatch through
`ctx.RoundTripper` is commented out in the source; the compiled code always
calls `sendRequestManually`, whatever the field holds. -/
def ProxyCtx.RoundTrip (_ctx : ProxyCtx) (net : Network) (req : Request) : SendResult :=
  sendRequestManually net req

/-- Observable control-flow events of one `ServeHTTP` pass: which request
filter ran (with its registration index), each invocation of the response
filter chain (`respChain`, carrying the input handed to the chain), each
response filter run (index and the value it observed), the websocket
delegation, the header-sanitizer step, and the transport send. -/
inductive Ev where
  | reqFilter (k : Nat)
  | respChain (input : Option Response)
  | respFilter (k : Nat) (input : Option Response)
  | wsServe
  | sanitize
  | transportSend
  deriving DecidableEq

/-- `ReqHandler.Handle`: may rewrite the request and may produce a canned
response. -/
abbrev ReqHandler := Request → ProxyCtx → Request × Option Response

/-- `RespHandler.Handle`: transforms the current (possibly nil) response. -/
abbrev RespHandler := Option Response → ProxyCtx → Option Response

/-- `ProxyHttpServer` configuration relevant to the dispatcher. -/
structure ProxyHttpServer where
  KeepDestinationHeaders : Bool := false
  Verbose : Bool := false
  KeepHeader : Bool := false
  reqHandlers : List ReqHandler := []
  respHandlers : List RespHandler := []

/-- Result of `filterRequest` plus its event trace. -/
structure FilterReqResult where
  req : Request
  resp : Option Response
  events : List Ev

/-- Loop body of `filterRequest` (proxy.go lines 59–70).  Faithful to the
source: every handler is invoked with the ORIGINAL inbound request `r`
(the loop reads `h.Handle(r, ctx)`, not `h.Handle(req, ctx)`); the loop
variable `req` is overwritten by each handler's returned request and a
non-nil canned response breaks the loop. -/
def filterRequestGo (r : Request) (ctx : ProxyCtx) :
    List ReqHandler → Nat → Request → FilterReqResult
  | [], _, req => ⟨req, none, []⟩
  | h :: hs, k, _ =>
    let pr := h r ctx
    match pr.2 with
    | some c => ⟨pr.1, some c, [Ev.reqFilter k]⟩
    | none =>
      let rest := filterRequestGo r ctx hs (k + 1) pr.1
      ⟨rest.req, rest.resp, Ev.reqFilter k :: rest.events⟩

/-- `ProxyHttpServer.filterRequest`. -/
def filterRequest (handlers : List ReqHandler) (r : Request) (ctx : ProxyCtx) :
    FilterReqResult :=
  filterRequestGo r ctx handlers 0 r

/-- Result of `filterResponse` plus the threaded context and event trace. -/
structure FilterRespResult where
  resp : Option Response
  ctx : ProxyCtx
  events : List Ev

/-- Loop body of `filterResponse` (proxy.go lines 71–78): before each
handler runs, `ctx.Resp` is set to the current response; the handler's
output becomes the next current response. -/
def filterResponseGo : List RespHandler → Nat → Option Response → ProxyCtx → FilterRespResult
  | [], _, resp, ctx => ⟨resp, ctx, []⟩
  | h :: hs, k, resp, ctx =>
    let ctx2 := { ctx with Resp := resp }
    let rest := filterResponseGo hs (k + 1) (h resp ctx2) ctx2
    ⟨rest.resp, rest.ctx, Ev.respFilter k resp :: rest.events⟩

/-- `ProxyHttpServer.filterResponse`. -/
def filterResponse (handlers : List RespHandler) (respOrig : Option Response)
    (ctx : ProxyCtx) : FilterRespResult :=
  filterResponseGo handlers 0 respOrig ctx

/-- `removeProxyHeaders` (proxy.go lines 80–108): clear `RequestURI`,
delete `Accept-Encoding`, `Proxy-Connection`, `Proxy-Authenticate` and
`Proxy-Authorization`, and when the `Connection` header value is exactly
`close`, clear the `Close` flag on the request instead of deleting the
header (the `r.Header.Del("Connection")` line is commented out in the
source). -/
def removeProxyHeaders (_ctx : ProxyCtx) (r : Request) : Request :=
  let r := { r with requestURI := "" }
  let h := (((r.header.del "Accept-Encoding").del "Proxy-Connection").del
      "Proxy-Authenticate").del "Proxy-Authorization"
  let r := { r with header := h }
  if r.header.get "Connection" = "close" then { r with close := false } else r

/-- The request actually handed to `ctx.RoundTrip` by the dispatcher:
sanitized unless `KeepHeader` is set (proxy.go lines 146–148). -/
def sanitizedReq (proxy : ProxyHttpServer) (ctx : ProxyCtx) (rq : Request) : Request :=
  if proxy.KeepHeader then rq else removeProxyHeaders ctx rq

/-- What one dispatcher pass produces: the event trace, the response
streamed to the client (after the conditional `Content-Length` deletion),
and the 500-error body when the final response is absent. -/
structure ServeOutput where
  events : List Ev
  sent : Option Response
  httpError : Option String

/-- Tail of `ServeHTTP` (proxy.go lines 160–204): remember the identity of
the body of the response entering the chain (`origBody`), run the response
filter chain, and either emit a 500 error (absent final response, message
taken from `ctx.Error` when set) or delete `Content-Length` exactly when
the body object identity changed and stream the response. -/
def finishResponse (proxy : ProxyHttpServer) (r : Request) (ctx : ProxyCtx)
    (pre : List Ev) (resp : Option Response) : ServeOutput :=
  let origBody : Option Nat := resp.map (fun x => x.body)
  let FR := filterResponse proxy.respHandlers resp ctx
  let events := pre ++ Ev.respChain resp :: FR.events
  match FR.resp with
  | none =>
    { events := events, sent := none,
      httpError := some (match FR.ctx.Error with
        | some e => e
        | none => "error read response " ++ r.url.host) }
  | some fr =>
    let fr2 := if origBody = some fr.body then fr
               else { fr with header := fr.header.del "Content-Length" }
    { events := events, sent := some fr2, httpError := none }

/-- Middle of `ServeHTTP` (proxy.go lines 140–158), reached when no filter
produced a canned response: websocket delegation (with NO early return in
the source — execution falls through), conditional header sanitizing,
transport send; on a transport error the error is recorded on the context
and the response filter chain is run once with a nil response, after which
control still reaches the common `filterResponse` call in
`finishResponse`. -/
def transportPhase (proxy : ProxyHttpServer) (isWS : Request → Bool) (net : Network)
    (ctx : ProxyCtx) (F : FilterReqResult) : ServeOutput :=
  let wsEvs := if isWS F.req then [Ev.wsServe] else []
  let sanEvs := if proxy.KeepHeader then ([] : List Ev) else [Ev.sanitize]
  let r2 := sanitizedReq proxy ctx F.req
  let S := ProxyCtx.RoundTrip ctx net r2
  let pre := F.events ++ wsEvs ++ sanEvs ++ [Ev.transportSend]
  match S.result with
  | .error e =>
    let FR1 := filterResponse proxy.respHandlers none { ctx with Error := some e }
    finishResponse proxy r2 FR1.ctx (pre ++ Ev.respChain none :: FR1.events) FR1.resp
  | .ok resp => finishResponse proxy r2 ctx pre (some resp)

/-- The fresh context built at proxy.go line 130. -/
def newCtx (r : Request) (s : Int) : ProxyCtx :=
  { Req := r, Resp := none, RoundTripper := none, Error := none, Session := s }

/-- Body of the non-CONNECT branch of `ServeHTTP` after the absolute-URL
check: run the request filter chain; a canned response goes straight to
response filtering, otherwise the transport phase runs. -/
def proxyMain (proxy : ProxyHttpServer) (isWS : Request → Bool) (net : Network)
    (ctx : ProxyCtx) (r : Request) : ServeOutput :=
  let F := filterRequest proxy.reqHandlers r ctx
  match F.resp with
  | some c => finishResponse proxy F.req ctx F.events (some c)
  | none => transportPhase proxy isWS net ctx F

/-- How one inbound request is routed by `ServeHTTP`. -/
inductive ServeOutcome where
  | handledConnect
  | nonproxy
  | proxied (out : ServeOutput)

/-- `ServeHTTP` (proxy.go lines 125–206): CONNECT goes to the HTTPS tunnel
handler, a non-absolute URL (`r.URL.IsAbs()` is `u.Scheme != ""`) goes to
the fallback handler, everything else is a proxied request.  `isWS` stands
in for `isWebSocketRequest` (defined in a file outside the analysed
sources) and `s` for the freshly incremented session counter. -/
def ServeHTTP (proxy : ProxyHttpServer) (isWS : Request → Bool) (net : Network)
    (s : Int) (r : Request) : ServeOutcome :=
  if r.method = "CONNECT" then .handledConnect
  else if r.url.scheme = "" then .nonproxy
  else .proxied (proxyMain proxy isWS net (newCtx r s) r)

/-- Projection of an outcome onto its proxied event trace. -/
def outcomeEvents : ServeOutcome → List Ev
  | .proxied o => o.events
  | _ => []

/-- Whether the outcome went through the proxied path. -/
def outcomeIsProxied : ServeOutcome → Bool
  | .proxied _ => true
  | _ => false

/-- The inputs handed to the response filter chain, one entry per chain
invocation, in order. -/
def chainEvInput : Ev → Option (Option Response)
  | .respChain i => some i
  | _ => none

/-- Inputs of the response-filter-chain invocations found in a trace. -/
def chainInputs (evs : List Ev) : List (Option Response) :=
  evs.filterMap chainEvInput

/-- Registration index carried by a request-filter event. -/
def reqFilterIdx : Ev → Option Nat
  | .reqFilter k => some k
  | _ => none

/-- Registration indices of the request filters that ran, in order. -/
def reqFilterIdxs (evs : List Ev) : List Nat :=
  evs.filterMap reqFilterIdx

/-- Modelled from the spec's words for claim C7 only, as a comparison
point for the source translation `filterRequest`: a composed traversal in
which each filter after the first receives the request produced by the
previous filter. -/
def filterRequestSpec : List ReqHandler → Request → ProxyCtx → Request × Option Response
  | [], r, _ => (r, none)
  | h :: hs, r, ctx =>
    match h r ctx with
    | (req2, some c) => (req2, some c)
    | (req2, none) => filterRequestSpec hs req2 ctx

/-- Modelled from the spec's words for claim C6 only, as a comparison
point for the lines `sendRequestManually` writes: the header lines in the
order stored on the request object. -/
def specOrderedHeaderLines (req : Request) : List String :=
  headerLines req.header req.header.keys

/-! ### Concrete fixtures used by witnesses and counterexamples -/

def wURL : URL := { scheme := "http", host := "h:1", path := "/", rawQuery := "" }

def wReq : Request :=
  { method := "GET", url := wURL, header := ⟨[]⟩, close := false, requestURI := "/" }

def wResp : Response := { status := "200 OK", statusCode := 200, header := ⟨[]⟩, body := 7 }

def wRespB : Response := { status := "404", statusCode := 404, header := ⟨[]⟩, body := 9 }

def wNetOk : Network := { dialOk := true, keyOrder := ["Host"], readResponse := .ok wResp }

def wNetFail : Network := { dialOk := false, keyOrder := [], readResponse := .error "refused" }

def wProxy0 : ProxyHttpServer := {}

def hPass : ReqHandler := fun rq _ => (rq, none)

def hCanned : ReqHandler := fun rq _ => (rq, some wResp)

def hNever : ReqHandler := fun rq _ => (rq, some wRespB)

def hRewrite : ReqHandler := fun rq _ => ({ rq with method := "POST" }, none)

def hEcho : ReqHandler := fun rq _ => (rq, none)

def wProxyCanned : ProxyHttpServer := { reqHandlers := [hPass, hCanned, hNever] }

/-- A response filter that substitutes a fresh body object. -/
def hBodySwap : RespHandler := fun resp _ =>
  match resp with
  | some x => some { x with body := x.body + 1 }
  | none => none

/-- A response filter that returns its input unchanged. -/
def hRespId : RespHandler := fun resp _ => resp

/-- Request fixture with a multi-entry header map, for serialization
claims. -/
def wReqH : Request :=
  { method := "GET", url := wURL,
    header := ⟨[("Host", ["h"]), ("A", ["1"]), ("B", ["2"])]⟩,
    close := false, requestURI := "/" }

/-- A network whose map iteration order reverses the stored key order. -/
def wNetBA : Network :=
  { dialOk := true, keyOrder := ["B", "A", "Host"], readResponse := .ok wResp }

/-- Response whose `Content-Type` header carries a charset parameter. -/
def wRespCT : Response :=
  { status := "200 OK", statusCode := 200,
    header := ⟨[("Content-Type", ["text/html; charset=ISO-8859-1"])]⟩, body := 3 }

/-- Request fixture carrying `Connection: close`. -/
def wReqClose : Request :=
  { method := "GET", url := wURL,
    header := ⟨[("Connection", ["close"]), ("Accept-Encoding", ["gzip"])]⟩,
    close := true, requestURI := "/" }

/-- A custom round tripper installed on a context (never invoked by the
compiled code). -/
def wCustomRT : Request → Except String Response := fun _ => .ok wRespB

/-- Request fixture whose URL host carries no port. -/
def wReqNoPort : Request :=
  { method := "GET", url := { scheme := "https", host := "h", path := "/", rawQuery := "" },
    header := ⟨[]⟩, close := false, requestURI := "/" }

/-- Network fixture whose iteration order covers the sanitized
`Connection: close` request's keys. -/
def wNetConn : Network :=
  { dialOk := true, keyOrder := ["Host", "Connection"], readResponse := .ok wResp }

/-- Origin response carrying a `Content-Length` header. -/
def wRespCL : Response :=
  { status := "200 OK", statusCode := 200,
    header := ⟨[("Content-Length", ["5"])]⟩, body := 7 }

/-- `wRespCL` after a filter substituted a fresh body object. -/
def wRespSwapped : Response := { wRespCL with body := wRespCL.body + 1 }

/-- Network delivering `wRespCL`. -/
def wNetCL : Network :=
  { dialOk := true, keyOrder := ["Host"], readResponse := .ok wRespCL }

/-- Server with one body-swapping response filter. -/
def wProxySwap : ProxyHttpServer := { respHandlers := [hBodySwap] }

/-- Server with one identity response filter. -/
def wProxyId : ProxyHttpServer := { respHandlers := [hRespId] }

/-! ### Trace-shape lemmas -/

theorem filterRequestGo_events_shape (r : Request) (ctx : ProxyCtx) :
    ∀ (hs : List ReqHandler) (k : Nat) (q : Request),
      ∀ e ∈ (filterRequestGo r ctx hs k q).events, ∃ i, e = Ev.reqFilter i := by
  intro hs
  induction hs with
  | nil => intro k q e he; simp [filterRequestGo] at he
  | cons h hs ih =>
    intro k q e he
    simp only [filterRequestGo] at he
    cases hpr : (h r ctx).2 with
    | some c =>
      rw [hpr] at he
      simp at he
      exact ⟨k, he⟩
    | none =>
      rw [hpr] at he
      simp at he
      rcases he with he | he
      · exact ⟨k, he⟩
      · exact ih (k + 1) (h r ctx).1 e he

theorem filterResponseGo_events_shape :
    ∀ (hs : List RespHandler) (k : Nat) (resp : Option Response) (ctx : ProxyCtx),
      ∀ e ∈ (filterResponseGo hs k resp ctx).events, ∃ i p, e = Ev.respFilter i p := by
  intro hs
  induction hs with
  | nil => intro k resp ctx e he; simp [filterResponseGo] at he
  | cons h hs ih =>
    intro k resp ctx e he
    simp only [filterResponseGo] at he
    simp at he
    rcases he with he | he
    · exact ⟨k, resp, he⟩
    · exact ih (k + 1) _ _ e he

theorem chainInputs_append (a b : List Ev) :
    chainInputs (a ++ b) = chainInputs a ++ chainInputs b :=
  List.filterMap_append a b chainEvInput

theorem reqFilterIdxs_append (a b : List Ev) :
    reqFilterIdxs (a ++ b) = reqFilterIdxs a ++ reqFilterIdxs b :=
  List.filterMap_append a b reqFilterIdx

theorem chainInputs_filterRequestGo (r : Request) (ctx : ProxyCtx)
    (hs : List ReqHandler) (k : Nat) (q : Request) :
    chainInputs (filterRequestGo r ctx hs k q).events = [] := by
  refine List.filterMap_eq_nil_iff.mpr ?_
  intro e he
  obtain ⟨i, rfl⟩ := filterRequestGo_events_shape r ctx hs k q e he
  rfl

theorem chainInputs_filterResponseGo (hs : List RespHandler) (k : Nat)
    (resp : Option Response) (ctx : ProxyCtx) :
    chainInputs (filterResponseGo hs k resp ctx).events = [] := by
  refine List.filterMap_eq_nil_iff.mpr ?_
  intro e he
  obtain ⟨i, p, rfl⟩ := filterResponseGo_events_shape hs k resp ctx e he
  rfl

theorem reqFilterIdxs_filterResponseGo (hs : List RespHandler) (k : Nat)
    (resp : Option Response) (ctx : ProxyCtx) :
    reqFilterIdxs (filterResponseGo hs k resp ctx).events = [] := by
  refine List.filterMap_eq_nil_iff.mpr ?_
  intro e he
  obtain ⟨i, p, rfl⟩ := filterResponseGo_events_shape hs k resp ctx e he
  rfl

theorem transportSend_not_mem_filterRequestGo (r : Request) (ctx : ProxyCtx)
    (hs : List ReqHandler) (k : Nat) (q : Request) :
    Ev.transportSend ∉ (filterRequestGo r ctx hs k q).events := by
  intro hmem
  obtain ⟨i, hi⟩ := filterRequestGo_events_shape r ctx hs k q _ hmem
  exact Ev.noConfusion hi

theorem transportSend_not_mem_filterResponseGo (hs : List RespHandler) (k : Nat)
    (resp : Option Response) (ctx : ProxyCtx) :
    Ev.transportSend ∉ (filterResponseGo hs k resp ctx).events := by
  intro hmem
  obtain ⟨i, p, hi⟩ := filterResponseGo_events_shape hs k resp ctx _ hmem
  exact Ev.noConfusion hi

theorem sanitize_not_mem_filterRequestGo (r : Request) (ctx : ProxyCtx)
    (hs : List ReqHandler) (k : Nat) (q : Request) :
    Ev.sanitize ∉ (filterRequestGo r ctx hs k q).events := by
  intro hmem
  obtain ⟨i, hi⟩ := filterRequestGo_events_shape r ctx hs k q _ hmem
  exact Ev.noConfusion hi

theorem sanitize_not_mem_filterResponseGo (hs : List RespHandler) (k : Nat)
    (resp : Option Response) (ctx : ProxyCtx) :
    Ev.sanitize ∉ (filterResponseGo hs k resp ctx).events := by
  intro hmem
  obtain ⟨i, p, hi⟩ := filterResponseGo_events_shape hs k resp ctx _ hmem
  exact Ev.noConfusion hi

/-! ### Unfolding lemmas for the dispatcher -/

theorem finishResponse_events (proxy : ProxyHttpServer) (r : Request) (ctx : ProxyCtx)
    (pre : List Ev) (resp : Option Response) :
    (finishResponse proxy r ctx pre resp).events =
      pre ++ Ev.respChain resp :: (filterResponse proxy.respHandlers resp ctx).events := by
  unfold finishResponse
  cases h : (filterResponse proxy.respHandlers resp ctx).resp <;> simp [h]

theorem transportPhase_ok (proxy : ProxyHttpServer) (isWS : Request → Bool)
    (net : Network) (ctx : ProxyCtx) (F : FilterReqResult) (resp : Response)
    (hOk : (ProxyCtx.RoundTrip ctx net (sanitizedReq proxy ctx F.req)).result = .ok resp) :
    transportPhase proxy isWS net ctx F =
      finishResponse proxy (sanitizedReq proxy ctx F.req) ctx
        (F.events ++ (if isWS F.req then [Ev.wsServe] else []) ++
          (if proxy.KeepHeader then [] else [Ev.sanitize]) ++ [Ev.transportSend])
        (some resp) := by
  simp only [transportPhase]
  rw [hOk]

theorem transportPhase_err (proxy : ProxyHttpServer) (isWS : Request → Bool)
    (net : Network) (ctx : ProxyCtx) (F : FilterReqResult) (e : String)
    (hErr : (ProxyCtx.RoundTrip ctx net (sanitizedReq proxy ctx F.req)).result = .error e) :
    transportPhase proxy isWS net ctx F =
      finishResponse proxy (sanitizedReq proxy ctx F.req)
        (filterResponse proxy.respHandlers none { ctx with Error := some e }).ctx
        ((F.events ++ (if isWS F.req then [Ev.wsServe] else []) ++
            (if proxy.KeepHeader then [] else [Ev.sanitize]) ++ [Ev.transportSend]) ++
          Ev.respChain none ::
            (filterResponse proxy.respHandlers none { ctx with Error := some e }).events)
        (filterResponse proxy.respHandlers none { ctx with Error := some e }).resp := by
  simp only [transportPhase]
  rw [hErr]

theorem serveHTTP_proxied (proxy : ProxyHttpServer) (isWS : Request → Bool)
    (net : Network) (s : Int) (r : Request)
    (hM : ¬ r.method = "CONNECT") (hA : ¬ r.url.scheme = "") :
    ServeHTTP proxy isWS net s r = .proxied (proxyMain proxy isWS net (newCtx r s) r) := by
  simp [ServeHTTP, hM, hA]

/-! ### Request-filter-chain lemmas -/

theorem reqFilterIdxs_map_range (k n : Nat) :
    reqFilterIdxs ((List.range' k n).map Ev.reqFilter) = List.range' k n := by
  induction n generalizing k with
  | zero => rfl
  | succ n ih =>
    rw [List.range'_succ]
    simp only [List.map_cons, reqFilterIdxs, List.filterMap_cons]
    rw [show reqFilterIdx (Ev.reqFilter k) = some k from rfl]
    exact congrArg (k :: ·) (ih (k + 1))

theorem chainInputs_map_range (k n : Nat) :
    chainInputs ((List.range' k n).map Ev.reqFilter) = [] := by
  refine List.filterMap_eq_nil_iff.mpr ?_
  intro e he
  obtain ⟨i, _, rfl⟩ := List.mem_map.mp he
  rfl

/-- The `filterRequest` loop on `pre ++ hk :: post` when every handler in
`pre` declines and `hk` produces a canned response: the loop breaks at
`hk`, the handlers in `post` never run, and the executed indices are
`k, k+1, ..., k + pre.length`. -/
theorem filterRequestGo_break (r : Request) (ctx : ProxyCtx) (hk : ReqHandler)
    (post : List ReqHandler) (c : Response) (hkc : (hk r ctx).2 = some c) :
    ∀ (pre : List ReqHandler) (k : Nat) (q : Request),
      (∀ h ∈ pre, (h r ctx).2 = none) →
      filterRequestGo r ctx (pre ++ hk :: post) k q =
        ⟨(hk r ctx).1, some c, (List.range' k (pre.length + 1)).map Ev.reqFilter⟩ := by
  intro pre
  induction pre with
  | nil =>
    intro k q _
    simp only [List.nil_append, filterRequestGo]
    rw [hkc, List.range'_succ]
    simp [List.range']
  | cons h pre ih =>
    intro k q hpre
    have hh : (h r ctx).2 = none := hpre h (by simp)
    simp only [List.cons_append, filterRequestGo]
    rw [hh]
    simp only [List.append_eq]
    rw [ih (k + 1) (h r ctx).1 (fun h' hm => hpre h' (by simp [hm]))]
    simp [List.range'_succ]

/-- The `filterRequest` loop when every handler declines: no canned
response, the final request value is the LAST handler's output computed
from the original request `r` (or the loop variable's initial value when
the list is empty), and every index runs. -/
theorem filterRequestGo_all_none (r : Request) (ctx : ProxyCtx) :
    ∀ (hs : List ReqHandler) (k : Nat) (q : Request),
      (∀ h ∈ hs, (h r ctx).2 = none) →
      filterRequestGo r ctx hs k q =
        ⟨(match hs.getLast? with | none => q | some h => (h r ctx).1), none,
          (List.range' k hs.length).map Ev.reqFilter⟩ := by
  intro hs
  induction hs with
  | nil => intro k q _; simp [filterRequestGo, List.range']
  | cons h hs ih =>
    intro k q hpre
    have hh : (h r ctx).2 = none := hpre h (by simp)
    simp only [filterRequestGo]
    rw [hh]
    simp only []
    rw [ih (k + 1) (h r ctx).1 (fun h' hm => hpre h' (by simp [hm]))]
    cases hs with
    | nil => simp [List.range'_succ]
    | cons h2 hs2 =>
      cases hgl : (h2 :: hs2).getLast? with
      | none => exact absurd (List.getLast?_eq_none_iff.mp hgl) (by simp)
      | some hl => simp [hgl, List.range'_succ]

theorem reqFilterIdxs_cons_respChain (i : Option Response) (l : List Ev) :
    reqFilterIdxs (Ev.respChain i :: l) = reqFilterIdxs l := by
  simp [reqFilterIdxs, List.filterMap_cons, reqFilterIdx]

theorem chainInputs_cons_respChain (i : Option Response) (l : List Ev) :
    chainInputs (Ev.respChain i :: l) = i :: chainInputs l := by
  simp [chainInputs, List.filterMap_cons, chainEvInput]

theorem chainInputs_filterResponse (hs : List RespHandler) (resp : Option Response)
    (ctx : ProxyCtx) : chainInputs (filterResponse hs resp ctx).events = [] :=
  chainInputs_filterResponseGo hs 0 resp ctx

theorem reqFilterIdxs_filterResponse (hs : List RespHandler) (resp : Option Response)
    (ctx : ProxyCtx) : reqFilterIdxs (filterResponse hs resp ctx).events = [] :=
  reqFilterIdxs_filterResponseGo hs 0 resp ctx

theorem chainInputs_filterRequest (hs : List ReqHandler) (r : Request) (ctx : ProxyCtx) :
    chainInputs (filterRequest hs r ctx).events = [] :=
  chainInputs_filterRequestGo r ctx hs 0 r

/-! ### Claim theorems -/

/-- Claim C2: for any registered sequence of request filters, if filter `k`
returns a non-absent canned response then filters `k+1..n` never execute
(the executed registration indices are exactly `0..k`), the transport
sender is never invoked (no outbound connection is opened), and processing
transitions directly to response filtering with the canned response as the
chain input. -/
theorem canned_response_short_circuits
    (proxy : ProxyHttpServer) (isWS : Request → Bool) (net : Network) (s : Int)
    (r : Request) (pre post : List ReqHandler) (hk : ReqHandler) (c : Response)
    (hM : ¬ r.method = "CONNECT") (hA : ¬ r.url.scheme = "")
    (hH : proxy.reqHandlers = pre ++ hk :: post)
    (hpre : ∀ h ∈ pre, (h r (newCtx r s)).2 = none)
    (hkc : (hk r (newCtx r s)).2 = some c) :
    outcomeIsProxied (ServeHTTP proxy isWS net s r) = true ∧
    Ev.transportSend ∉ outcomeEvents (ServeHTTP proxy isWS net s r) ∧
    reqFilterIdxs (outcomeEvents (ServeHTTP proxy isWS net s r)) = List.range (pre.length + 1) ∧
    chainInputs (outcomeEvents (ServeHTTP proxy isWS net s r)) = [some c] := by
  have hS := serveHTTP_proxied proxy isWS net s r hM hA
  have hF : filterRequest proxy.reqHandlers r (newCtx r s) =
      ⟨(hk r (newCtx r s)).1, some c, (List.range' 0 (pre.length + 1)).map Ev.reqFilter⟩ := by
    rw [hH]
    exact filterRequestGo_break r (newCtx r s) hk post c hkc pre 0 r hpre
  have hPM : proxyMain proxy isWS net (newCtx r s) r =
      finishResponse proxy (hk r (newCtx r s)).1 (newCtx r s)
        ((List.range' 0 (pre.length + 1)).map Ev.reqFilter) (some c) := by
    simp only [proxyMain, hF]
  rw [hS, hPM]
  have hev := finishResponse_events proxy (hk r (newCtx r s)).1 (newCtx r s)
      ((List.range' 0 (pre.length + 1)).map Ev.reqFilter) (some c)
  refine ⟨rfl, ?_, ?_, ?_⟩
  · simp only [outcomeEvents, hev]
    intro hmem
    rcases List.mem_append.mp hmem with hmem | hmem
    · obtain ⟨i, _, hi⟩ := List.mem_map.mp hmem
      exact Ev.noConfusion hi
    · rcases List.mem_cons.mp hmem with hi | hmem
      · exact Ev.noConfusion hi
      · exact transportSend_not_mem_filterResponseGo _ _ _ _ hmem
  · simp only [outcomeEvents, hev]
    rw [reqFilterIdxs_append, reqFilterIdxs_map_range, reqFilterIdxs_cons_respChain,
      reqFilterIdxs_filterResponse, List.append_nil, List.range_eq_range']
  · simp only [outcomeEvents, hev]
    rw [chainInputs_append, chainInputs_map_range, chainInputs_cons_respChain,
      chainInputs_filterResponse, List.nil_append]

/-- Witness for `canned_response_short_circuits`: filters
`[pass, canned, never]` — the canned filter (index 1) short-circuits, the
third filter does not run and no transport send happens. -/
theorem canned_response_short_circuits_witness :
    outcomeIsProxied (ServeHTTP wProxyCanned (fun _ => false) wNetOk 1 wReq) = true ∧
    Ev.transportSend ∉ outcomeEvents (ServeHTTP wProxyCanned (fun _ => false) wNetOk 1 wReq) ∧
    reqFilterIdxs (outcomeEvents (ServeHTTP wProxyCanned (fun _ => false) wNetOk 1 wReq)) =
      List.range 2 ∧
    chainInputs (outcomeEvents (ServeHTTP wProxyCanned (fun _ => false) wNetOk 1 wReq)) =
      [some wResp] :=
  canned_response_short_circuits wProxyCanned (fun _ => false) wNetOk 1 wReq
    [hPass] [hNever] hCanned wResp
    (by decide) (by decide) rfl
    (by intro h hm; rw [List.mem_singleton] at hm; subst hm; rfl) rfl

/-- Claim C7 counterexample: with filters `[rewrite-to-POST, identity]` the
source chain hands the second filter the ORIGINAL inbound request, so the
chain's final (forwarded) request still has method `GET`; the composed
traversal described by the claim would forward the rewritten `POST`
request. -/
theorem request_chain_not_composed_cex :
    (filterRequest [hRewrite, hEcho] wReq (newCtx wReq 1)).resp = none ∧
    (filterRequest [hRewrite, hEcho] wReq (newCtx wReq 1)).req.method = "GET" ∧
    (filterRequestSpec [hRewrite, hEcho] wReq (newCtx wReq 1)).1.method = "POST" ∧
    (filterRequest [hRewrite, hEcho] wReq (newCtx wReq 1)).req ≠
      (filterRequestSpec [hRewrite, hEcho] wReq (newCtx wReq 1)).1 := by
  refine ⟨rfl, rfl, rfl, ?_⟩
  intro h
  have hmeth := congrArg Request.method h
  revert hmeth
  decide

/-- Claim C7 amended: every request filter is invoked with the ORIGINAL
inbound request, not the previous filter's output; when no filter produces
a canned response, the chain's final request value (the one forwarded to
transport) is the last filter's output computed from the original request
(the original request itself when no filters are registered), and the
filters run in registration order. -/
theorem request_chain_original_input (hs : List ReqHandler) (r : Request) (ctx : ProxyCtx)
    (hnone : ∀ h ∈ hs, (h r ctx).2 = none) :
    (filterRequest hs r ctx).resp = none ∧
    (filterRequest hs r ctx).req =
      (match hs.getLast? with | none => r | some h => (h r ctx).1) ∧
    reqFilterIdxs (filterRequest hs r ctx).events = List.range hs.length := by
  have hgo := filterRequestGo_all_none r ctx hs 0 r hnone
  unfold filterRequest
  rw [hgo]
  refine ⟨rfl, rfl, ?_⟩
  rw [reqFilterIdxs_map_range, List.range_eq_range']

/-- Witness for `request_chain_original_input` at the two-filter fixture:
no canned response, forwarded value is the identity filter's output on the
original request, indices `0, 1` run. -/
theorem request_chain_original_input_witness :
    (filterRequest [hRewrite, hEcho] wReq (newCtx wReq 1)).resp = none ∧
    (filterRequest [hRewrite, hEcho] wReq (newCtx wReq 1)).req =
      (hEcho wReq (newCtx wReq 1)).1 ∧
    reqFilterIdxs (filterRequest [hRewrite, hEcho] wReq (newCtx wReq 1)).events =
      List.range 2 :=
  request_chain_original_input [hRewrite, hEcho] wReq (newCtx wReq 1)
    (by intro h hm; simp at hm; rcases hm with rfl | rfl <;> rfl)

/-- Claim C1 counterexample: for a proxied non-CONNECT request whose
transport dial fails, the response filter chain is invoked TWICE (the
trace records two chain invocations), not exactly once as claimed; the
first invocation does observe the nil response. -/
theorem respChain_double_run_on_transport_failure :
    outcomeIsProxied (ServeHTTP wProxy0 (fun _ => false) wNetFail 1 wReq) = true ∧
    chainInputs (outcomeEvents (ServeHTTP wProxy0 (fun _ => false) wNetFail 1 wReq)) =
      [none, none] ∧
    (chainInputs (outcomeEvents (ServeHTTP wProxy0 (fun _ => false) wNetFail 1 wReq))).length
      ≠ 1 := by
  refine ⟨rfl, rfl, ?_⟩
  decide

/-- Claim C1 amended: for every proxied request (absolute-URL target,
non-CONNECT), the response filter chain is executed exactly once — with
the canned response as input when a request filter short-circuited, and
with the transport's response as input when transport succeeded — EXCEPT
when the transport step failed: then the chain is executed twice, first
with the absent (nil) response as input, and then a second time with the
first execution's output as input. -/
theorem respChain_executions
    (proxy : ProxyHttpServer) (isWS : Request → Bool) (net : Network) (s : Int) (r : Request)
    (hM : ¬ r.method = "CONNECT") (hA : ¬ r.url.scheme = "") :
    (∀ c, (filterRequest proxy.reqHandlers r (newCtx r s)).resp = some c →
        chainInputs (outcomeEvents (ServeHTTP proxy isWS net s r)) = [some c]) ∧
    (∀ resp, (filterRequest proxy.reqHandlers r (newCtx r s)).resp = none →
        ((newCtx r s).RoundTrip net (sanitizedReq proxy (newCtx r s)
          (filterRequest proxy.reqHandlers r (newCtx r s)).req)).result = .ok resp →
        chainInputs (outcomeEvents (ServeHTTP proxy isWS net s r)) = [some resp]) ∧
    (∀ e, (filterRequest proxy.reqHandlers r (newCtx r s)).resp = none →
        ((newCtx r s).RoundTrip net (sanitizedReq proxy (newCtx r s)
          (filterRequest proxy.reqHandlers r (newCtx r s)).req)).result = .error e →
        chainInputs (outcomeEvents (ServeHTTP proxy isWS net s r)) =
          [none, (filterResponse proxy.respHandlers none
            { newCtx r s with Error := some e }).resp]) := by
  have hS := serveHTTP_proxied proxy isWS net s r hM hA
  rw [hS]
  have hWnil : chainInputs (if isWS (filterRequest proxy.reqHandlers r (newCtx r s)).req
      then [Ev.wsServe] else []) = [] := by split <;> rfl
  have hSnil : chainInputs (if proxy.KeepHeader then ([] : List Ev) else [Ev.sanitize]) = [] := by
    split <;> rfl
  refine ⟨?_, ?_, ?_⟩
  · intro c hc
    simp only [proxyMain, outcomeEvents]
    rw [hc]
    rw [finishResponse_events, chainInputs_append, chainInputs_filterRequest,
      chainInputs_cons_respChain, chainInputs_filterResponse, List.nil_append]
  · intro resp hc hok
    simp only [proxyMain, outcomeEvents]
    rw [hc]
    rw [transportPhase_ok proxy isWS net (newCtx r s) _ resp hok]
    rw [finishResponse_events, chainInputs_append, chainInputs_append, chainInputs_append,
      chainInputs_append, chainInputs_filterRequest, hWnil, hSnil,
      chainInputs_cons_respChain, chainInputs_filterResponse]
    rfl
  · intro e hc herr
    simp only [proxyMain, outcomeEvents]
    rw [hc]
    rw [transportPhase_err proxy isWS net (newCtx r s) _ e herr]
    rw [finishResponse_events, chainInputs_append, chainInputs_append, chainInputs_append,
      chainInputs_append, chainInputs_append, chainInputs_filterRequest, hWnil, hSnil,
      chainInputs_cons_respChain, chainInputs_cons_respChain,
      chainInputs_filterResponse, chainInputs_filterResponse]
    rfl

/-- Witness for `respChain_executions`, failure branch, at the dial-failing
fixture: the chain runs twice, first observing the nil response. -/
theorem respChain_executions_witness :
    chainInputs (outcomeEvents (ServeHTTP wProxy0 (fun _ => false) wNetFail 1 wReq)) =
      [none, (filterResponse wProxy0.respHandlers none
        { newCtx wReq 1 with Error := some "dial error" }).resp] :=
  (respChain_executions wProxy0 (fun _ => false) wNetFail 1 wReq
    (by decide) (by decide)).2.2 "dial error" rfl rfl

/-- Claim C4 counterexample: a proxied request detected as a WebSocket
upgrade is delegated to the tunnel collaborator (`wsServe` appears in the
trace), but the normal path is NOT abandoned: the header sanitizer and the
transport sender are still invoked for that same request. -/
theorem websocket_path_still_transports_cex :
    Ev.wsServe ∈ outcomeEvents (ServeHTTP wProxy0 (fun _ => true) wNetOk 1 wReq) ∧
    Ev.sanitize ∈ outcomeEvents (ServeHTTP wProxy0 (fun _ => true) wNetOk 1 wReq) ∧
    Ev.transportSend ∈ outcomeEvents (ServeHTTP wProxy0 (fun _ => true) wNetOk 1 wReq) := by
  refine ⟨?_, ?_, ?_⟩ <;> decide

/-- Claim C4 amended: for every proxied request detected as a WebSocket
upgrade (and not short-circuited by a request filter), handling is
delegated to the external tunnel collaborator, but — because the source
has no early return after the delegation — the dispatcher then CONTINUES
the normal request/response path: the header sanitizer (unless
`KeepHeader` is set) and the transport sender are invoked for that request
after the delegation returns. -/
theorem websocket_delegation_continues
    (proxy : ProxyHttpServer) (isWS : Request → Bool) (net : Network) (s : Int) (r : Request)
    (hM : ¬ r.method = "CONNECT") (hA : ¬ r.url.scheme = "")
    (hF : (filterRequest proxy.reqHandlers r (newCtx r s)).resp = none)
    (hWS : isWS (filterRequest proxy.reqHandlers r (newCtx r s)).req = true) :
    Ev.wsServe ∈ outcomeEvents (ServeHTTP proxy isWS net s r) ∧
    Ev.transportSend ∈ outcomeEvents (ServeHTTP proxy isWS net s r) ∧
    (proxy.KeepHeader = false → Ev.sanitize ∈ outcomeEvents (ServeHTTP proxy isWS net s r)) := by
  have hS := serveHTTP_proxied proxy isWS net s r hM hA
  rw [hS]
  simp only [proxyMain, outcomeEvents]
  rw [hF]
  cases hres : ((newCtx r s).RoundTrip net (sanitizedReq proxy (newCtx r s)
      (filterRequest proxy.reqHandlers r (newCtx r s)).req)).result with
  | error e =>
    rw [transportPhase_err proxy isWS net (newCtx r s) _ e hres]
    rw [finishResponse_events, hWS]
    refine ⟨?_, ?_, ?_⟩
    · simp
    · simp
    · intro hK; simp [hK]
  | ok resp =>
    rw [transportPhase_ok proxy isWS net (newCtx r s) _ resp hres]
    rw [finishResponse_events, hWS]
    refine ⟨?_, ?_, ?_⟩
    · simp
    · simp
    · intro hK; simp [hK]

/-- Witness for `websocket_delegation_continues` at the always-websocket
fixture. -/
theorem websocket_delegation_continues_witness :
    Ev.wsServe ∈ outcomeEvents (ServeHTTP wProxy0 (fun _ => true) wNetOk 1 wReq) ∧
    Ev.transportSend ∈ outcomeEvents (ServeHTTP wProxy0 (fun _ => true) wNetOk 1 wReq) ∧
    (wProxy0.KeepHeader = false →
      Ev.sanitize ∈ outcomeEvents (ServeHTTP wProxy0 (fun _ => true) wNetOk 1 wReq)) :=
  websocket_delegation_continues wProxy0 (fun _ => true) wNetOk 1 wReq
    (by decide) (by decide) rfl rfl

/-! ### Charset lemmas -/

theorem findCharsetAux_none_of_no_occurrence (cs : List Char)
    (h : ¬ ("charset=".toList <:+: cs)) : findCharsetAux cs = none := by
  induction cs with
  | nil => rfl
  | cons c cs ih =>
    rw [findCharsetAux]
    rw [if_neg]
    · exact ih (fun hi => h (List.infix_cons hi))
    · intro hp
      exact h (List.isPrefixOf_iff_prefix.mp hp).isInfix

theorem findCharsetAux_append (b : List Char) :
    ∀ a : List Char, 'c' ∉ a →
      findCharsetAux (a ++ "charset=".toList ++ b) =
        some (b.takeWhile (fun ch => !(ch == ' ') && !(ch == ';'))) := by
  intro a
  induction a with
  | nil =>
    intro _
    have hlist : "charset=".toList = 'c' :: "harset=".toList := rfl
    have hsplit : 'c' :: ("harset=".toList ++ b) = "charset=".toList ++ b := rfl
    rw [List.nil_append, hlist, List.cons_append, findCharsetAux]
    rw [if_pos ?pos]
    case pos =>
      rw [hsplit]
      exact List.isPrefixOf_iff_prefix.mpr (List.prefix_append _ _)
    rw [hsplit, show (8 : Nat) = ("charset=".toList).length from rfl, List.drop_left]
  | cons a0 a ih =>
    intro hc
    have h0 : a0 ≠ 'c' := fun h => hc (h ▸ List.mem_cons_self a0 a)
    rw [List.cons_append, List.cons_append, findCharsetAux]
    rw [if_neg]
    · exact ih (fun hm => hc (List.mem_cons_of_mem a0 hm))
    · intro hp
      have := List.isPrefixOf_iff_prefix.mp hp
      rcases this with ⟨t, ht⟩
      have : 'c' = a0 := by
        have := congrArg (fun l => l.head?) ht
        simpa using this
      exact h0 this.symm

/-- Claim C3 counterexample: on a context whose response reference is nil
(no response exists yet), `Charset` does not return the empty string — it
dereferences the nil response pointer and faults (modelled as
`Except.error ()`). -/
theorem charset_nil_resp_faults :
    ProxyCtx.Charset { Req := wReq, Resp := none } = .error () ∧
    ProxyCtx.Charset { Req := wReq, Resp := none } ≠ .ok "" := by
  refine ⟨rfl, ?_⟩
  intro h
  exact Except.noConfusion h

/-- Claim C3 amended: when a response exists, `Charset` returns the
`charset=` parameter of its `Content-Type` header when the pattern
matches (leftmost `charset=` occurrence, value up to the next space or
semicolon) and the empty string — without faulting — when the header is
absent or no match exists; but when no response exists yet (the response
reference is nil), the method dereferences the nil pointer and faults
instead of returning the empty string. -/
theorem charset_behavior :
    (∀ ctx : ProxyCtx, ctx.Resp = none → ctx.Charset = .error ()) ∧
    (∀ (ctx : ProxyCtx) (resp : Response), ctx.Resp = some resp →
      ¬ ("charset=".toList <:+: (resp.header.get "Content-Type").toList) →
      ctx.Charset = .ok "") ∧
    (∀ (ctx : ProxyCtx) (resp : Response) (a b : List Char), ctx.Resp = some resp →
      (resp.header.get "Content-Type").toList = a ++ "charset=".toList ++ b →
      'c' ∉ a →
      ctx.Charset = .ok (String.mk
        (b.takeWhile (fun ch => !(ch == ' ') && !(ch == ';'))))) := by
  refine ⟨?_, ?_, ?_⟩
  · intro ctx h
    simp [ProxyCtx.Charset, h]
  · intro ctx resp h hni
    simp only [ProxyCtx.Charset, h]
    rw [findCharsetAux_none_of_no_occurrence _ hni]
  · intro ctx resp a b h hct hc
    simp only [ProxyCtx.Charset, h]
    rw [hct, findCharsetAux_append b a hc]

/-- Witness for `charset_behavior` at the spec's two scenarios: a
`Content-Type: text/html; charset=ISO-8859-1` response yields
`ISO-8859-1`, and a response without the header yields the empty
string. -/
theorem charset_behavior_witness :
    ProxyCtx.Charset { Req := wReq, Resp := some wRespCT } = .ok "ISO-8859-1" ∧
    ProxyCtx.Charset { Req := wReq, Resp := some wResp } = .ok "" := by
  constructor
  · exact charset_behavior.2.2 { Req := wReq, Resp := some wRespCT } wRespCT
      "text/html; ".toList "ISO-8859-1".toList rfl (by decide) (by decide)
  · exact charset_behavior.2.1 { Req := wReq, Resp := some wResp } wResp rfl (by decide)

/-- Claim C5 counterexample: on a context whose `RoundTripper` field is
set to a capability returning a distinctive canned response, sending a
request does NOT invoke that capability — with a failing dial the result
is the manual sender's dial error, not the capability's response. -/
theorem roundTripper_field_ignored_cex :
    ({ Req := wReq, RoundTripper := some wCustomRT : ProxyCtx }.RoundTrip
        wNetFail wReq).result = .error "dial error" ∧
    wCustomRT wReq = .ok wRespB ∧
    ({ Req := wReq, RoundTripper := some wCustomRT : ProxyCtx }.RoundTrip
        wNetFail wReq).result ≠ wCustomRT wReq := by
  refine ⟨rfl, rfl, ?_⟩
  intro h
  exact Except.noConfusion h

/-- Claim C5 amended: the context's `RoundTripper` field is carried but
ignored — the dispatch through it is commented out in the source — so
sending a request always invokes the built-in manual sender, and the
result is independent of whether (and to what) the field is set. -/
theorem roundTrip_always_manual (ctx : ProxyCtx) (net : Network) (req : Request)
    (rt : Option (Request → Except String Response)) :
    ctx.RoundTrip net req = sendRequestManually net req ∧
    { ctx with RoundTripper := rt }.RoundTrip net req = ctx.RoundTrip net req :=
  ⟨rfl, rfl⟩

/-! ### Header-map lemmas -/

theorem lookup_cons_pair (k : String) (p : String × List String)
    (es : List (String × List String)) :
    List.lookup k (p :: es) = if k = p.1 then some p.2 else List.lookup k es := by
  obtain ⟨a, b⟩ := p
  simp only [List.lookup]
  split <;> rename_i hsc
  · rw [if_pos (by simpa using hsc)]
  · rw [if_neg (by simp_all)]

theorem lookup_map_replace_ne (k0 v k : String) (hne : k ≠ k0) :
    ∀ t : List (String × List String),
      (t.map (fun e => if e.1 == k0 then (k0, [v]) else e)).lookup k = t.lookup k := by
  intro t
  induction t with
  | nil => rfl
  | cons a t ih =>
    rw [List.map_cons]
    by_cases hak : a.1 = k0
    · rw [if_pos (by simpa using hak), lookup_cons_pair, lookup_cons_pair,
        if_neg hne, if_neg (fun hh => hne (by rw [hh, hak]))]
      exact ih
    · rw [if_neg (by simpa using hak), lookup_cons_pair, lookup_cons_pair]
      by_cases hka : k = a.1
      · rw [if_pos hka, if_pos hka]
      · rw [if_neg hka, if_neg hka]
        exact ih

theorem lookup_append_singleton_ne (k0 v k : String) (hne : k ≠ k0) :
    ∀ t : List (String × List String),
      (t ++ [(k0, [v])]).lookup k = t.lookup k := by
  intro t
  induction t with
  | nil =>
    rw [List.nil_append, lookup_cons_pair, if_neg hne]
  | cons a t ih =>
    rw [List.cons_append, lookup_cons_pair, lookup_cons_pair]
    by_cases hka : k = a.1
    · rw [if_pos hka, if_pos hka]
    · rw [if_neg hka, if_neg hka]
      exact ih

theorem lookup_replaceAll (k v : String) :
    ∀ l : List (String × List String), l.any (fun e => e.1 == k) = true →
      (l.map (fun e => if e.1 == k then (k, [v]) else e)).lookup k = some [v] := by
  intro l
  induction l with
  | nil => intro h; simp at h
  | cons a t ih =>
    intro h
    rw [List.map_cons]
    by_cases ha : a.1 = k
    · rw [if_pos (by simpa using ha), lookup_cons_pair, if_pos rfl]
    · rw [if_neg (by simpa using ha), lookup_cons_pair, if_neg (fun hh => ha hh.symm)]
      refine ih ?_
      simp only [List.any_cons, Bool.or_eq_true] at h
      rcases h with h | h
      · exact absurd (by simpa using h) ha
      · exact h

theorem lookup_append_singleton (k v : String) :
    ∀ l : List (String × List String), l.any (fun e => e.1 == k) = false →
      (l ++ [(k, [v])]).lookup k = some [v] := by
  intro l
  induction l with
  | nil => intro _; rw [List.nil_append, lookup_cons_pair, if_pos rfl]
  | cons a t ih =>
    intro h
    simp only [List.any_cons, Bool.or_eq_false_iff] at h
    rw [List.cons_append, lookup_cons_pair, if_neg]
    · exact ih h.2
    · intro hh
      have hc : (a.1 == k) = true := by simp [hh.symm]
      rw [h.1] at hc
      exact Bool.noConfusion hc

theorem set_entries_pos (h : Header) (k v : String)
    (ha : h.entries.any (fun e => e.1 == k) = true) :
    (h.set k v).entries = h.entries.map (fun e => if e.1 == k then (k, [v]) else e) := by
  unfold Header.set
  rw [if_pos ha]

theorem set_entries_neg (h : Header) (k v : String)
    (ha : h.entries.any (fun e => e.1 == k) = false) :
    (h.set k v).entries = h.entries ++ [(k, [v])] := by
  unfold Header.set
  rw [if_neg (by simp [ha])]

/-- `Set` then `Get` on the same key yields the set value. -/
theorem Header.get_set_self (h : Header) (k v : String) : (h.set k v).get k = v := by
  unfold Header.get
  cases ha : h.entries.any (fun e => e.1 == k) with
  | true => rw [set_entries_pos h k v ha, lookup_replaceAll k v h.entries ha]
  | false => rw [set_entries_neg h k v ha, lookup_append_singleton k v h.entries ha]

/-- `Set` on one key leaves lookups of other keys unchanged. -/
theorem lookup_set_ne (h : Header) (k0 v k : String) (hne : k ≠ k0) :
    (h.set k0 v).entries.lookup k = h.entries.lookup k := by
  cases ha : h.entries.any (fun e => e.1 == k0) with
  | true => rw [set_entries_pos h k0 v ha, lookup_map_replace_ne k0 v k hne]
  | false => rw [set_entries_neg h k0 v ha, lookup_append_singleton_ne k0 v k hne]

theorem Header.get_set_ne (h : Header) (k0 v k : String) (hne : k ≠ k0) :
    (h.set k0 v).get k = h.get k := by
  unfold Header.get
  rw [lookup_set_ne h k0 v k hne]

theorem lookup_del_ne (h : Header) (k0 k : String) (hne : k ≠ k0) :
    (h.del k0).entries.lookup k = h.entries.lookup k := by
  unfold Header.del
  induction h.entries with
  | nil => rfl
  | cons a t ih =>
    rw [List.filter_cons]
    by_cases hak : a.1 = k0
    · rw [if_neg (by simp [hak]), lookup_cons_pair,
        if_neg (fun hh => hne (by rw [hh, hak]))]
      exact ih
    · rw [if_pos (by simp [hak]), lookup_cons_pair, lookup_cons_pair]
      by_cases hka : k = a.1
      · rw [if_pos hka, if_pos hka]
      · rw [if_neg hka, if_neg hka]
        exact ih

theorem Header.get_del_ne (h : Header) (k0 k : String) (hne : k ≠ k0) :
    (h.del k0).get k = h.get k := by
  unfold Header.get
  rw [lookup_del_ne h k0 k hne]

theorem mem_keys_of_lookup (k : String) (vs : List String) :
    ∀ l : List (String × List String), l.lookup k = some vs → k ∈ l.map Prod.fst := by
  intro l
  induction l with
  | nil => intro h; exact absurd h (by simp)
  | cons a t ih =>
    intro h
    rw [lookup_cons_pair] at h
    by_cases hka : k = a.1
    · exact List.mem_map.mpr ⟨a, List.mem_cons_self a t, hka.symm⟩
    · rw [if_neg hka] at h
      exact List.mem_cons_of_mem _ (ih h)

/-- A stored header value yields its wire line under any iteration order
containing the key. -/
theorem mem_headerLines (h : Header) (order : List String) (k v : String)
    (hk : k ∈ order) (hv : v ∈ h.lookupValues k) :
    (k ++ ": " ++ v ++ "\r\n") ∈ headerLines h order := by
  unfold headerLines
  rw [List.mem_flatMap]
  exact ⟨k, hk, List.mem_map.mpr ⟨v, hv, rfl⟩⟩

/-- The request object after a `sendRequestManually` call, for every
network behavior (including dial and parse failures): `Host` header set
from the URL hostname, default port appended when the URL host has no
`':'`, everything else untouched — the mutations are never rolled back. -/
theorem sendRequestManually_req_eq (net : Network) (req : Request) :
    (sendRequestManually net req).req =
      { req with
        header := req.header.set "Host" req.url.hostname,
        url := if req.url.host.toList.contains ':' then req.url
               else { req.url with host := req.url.host ++
                 (if req.url.scheme = "https" then ":443" else ":80") } } := by
  simp only [sendRequestManually]
  cases hd : net.dialOk <;> cases hc : req.url.host.toList.contains ':' <;>
    cases hr : net.readResponse <;> simp [hd, hc, hr]

/-- Claim C10: every call to the manual transport sender mutates its input
request before any network I/O and the mutations persist for every
outcome, the error outcomes included: the `Host` header is set (via `Set`,
replacing prior values) to the URL hostname; when the URL host contains no
`':'`, `:443` (https) or `:80` (otherwise) is appended to the URL host
field; nothing restores the request on dial or parse failure, and no other
request field changes. -/
theorem sendRequestManually_mutations (net : Network) (req : Request) :
    (sendRequestManually net req).req.header = req.header.set "Host" req.url.hostname ∧
    (sendRequestManually net req).req.header.get "Host" = req.url.hostname ∧
    (sendRequestManually net req).req.url.host =
      (if req.url.host.toList.contains ':' then req.url.host
       else req.url.host ++ (if req.url.scheme = "https" then ":443" else ":80")) ∧
    (sendRequestManually net req).req.url.scheme = req.url.scheme ∧
    (sendRequestManually net req).req.url.path = req.url.path ∧
    (sendRequestManually net req).req.url.rawQuery = req.url.rawQuery ∧
    (sendRequestManually net req).req.method = req.method ∧
    (sendRequestManually net req).req.close = req.close ∧
    (sendRequestManually net req).req.requestURI = req.requestURI ∧
    (net.dialOk = false → (sendRequestManually net req).result = .error "dial error") := by
  rw [sendRequestManually_req_eq net req]
  refine ⟨rfl, Header.get_set_self _ _ _, ?_, ?_, ?_, ?_, rfl, rfl, rfl, ?_⟩
  · cases hc : req.url.host.toList.contains ':' <;> simp [hc]
  · cases hc : req.url.host.toList.contains ':' <;> simp [hc]
  · cases hc : req.url.host.toList.contains ':' <;> simp [hc]
  · cases hc : req.url.host.toList.contains ':' <;> simp [hc]
  · intro hd
    simp only [sendRequestManually, hd]
    cases hc : req.url.host.toList.contains ':' <;> simp [hc]

/-- Witness for `sendRequestManually_mutations` at a port-less https URL
and a failing dial: the `Host` header and the `:443` port suffix are in
place although the call returned the dial error. -/
theorem sendRequestManually_mutations_witness :
    (sendRequestManually wNetFail wReqNoPort).req.header.get "Host" = "h" ∧
    (sendRequestManually wNetFail wReqNoPort).req.url.host = "h:443" ∧
    (sendRequestManually wNetFail wReqNoPort).result = .error "dial error" :=
  ⟨(sendRequestManually_mutations wNetFail wReqNoPort).2.1,
   by rw [(sendRequestManually_mutations wNetFail wReqNoPort).2.2.1]; rfl,
   (sendRequestManually_mutations wNetFail wReqNoPort).2.2.2.2.2.2.2.2.2 rfl⟩

/-- Claim C6 counterexample: a legal map iteration order (a permutation of
the request's header keys) makes `sendRequestManually` write the header
lines in an order different from the order stored on the request object —
the stored order is not preserved. -/
theorem header_order_not_preserved_cex :
    wNetBA.keyOrder.Perm ((sendRequestManually wNetBA wReqH).req.header.keys) ∧
    (sendRequestManually wNetBA wReqH).wroteLines =
      some ["B: 2\r\n", "A: 1\r\n", "Host: h\r\n"] ∧
    specOrderedHeaderLines (sendRequestManually wNetBA wReqH).req =
      ["Host: h\r\n", "A: 1\r\n", "B: 2\r\n"] ∧
    (sendRequestManually wNetBA wReqH).wroteLines ≠
      some (specOrderedHeaderLines (sendRequestManually wNetBA wReqH).req) := by
  refine ⟨by decide, rfl, rfl, by decide⟩

/-- Claim C6 amended: for every request it sends (dial succeeded), the
manual transport sender writes the request line, then one `name: value`
line per header value present on the request object — a multi-valued name
repeats, with its values in stored order — then a blank-line terminator;
but the names follow the Go map's unspecified iteration order, so the
emitted lines are only guaranteed to be a permutation of the
stored-order lines, not equal to them. -/
theorem manual_send_wire_format (net : Network) (req : Request)
    (hD : net.dialOk = true)
    (hP : net.keyOrder.Perm (sendRequestManually net req).req.header.keys) :
    (sendRequestManually net req).wroteLines =
      some (headerLines (sendRequestManually net req).req.header net.keyOrder) ∧
    (sendRequestManually net req).wrote =
      some (requestLine (sendRequestManually net req).req ++
        String.join (headerLines (sendRequestManually net req).req.header net.keyOrder) ++
        "\r\n") ∧
    (headerLines (sendRequestManually net req).req.header net.keyOrder).Perm
      (specOrderedHeaderLines (sendRequestManually net req).req) := by
  refine ⟨?_, ?_, ?_⟩
  · simp only [sendRequestManually, hD]
    cases hc : req.url.host.toList.contains ':' <;> cases hr : net.readResponse <;>
      simp [hc, hr, sendRequestManually_req_eq, sendRequestManually, hD]
  · simp only [sendRequestManually, hD]
    cases hc : req.url.host.toList.contains ':' <;> cases hr : net.readResponse <;>
      simp [hc, hr, sendRequestManually_req_eq, sendRequestManually, hD]
  · unfold specOrderedHeaderLines headerLines
    exact hP.flatMap_right _

/-- Witness for `manual_send_wire_format` at the reversed-order fixture. -/
theorem manual_send_wire_format_witness :
    (sendRequestManually wNetBA wReqH).wroteLines =
      some (headerLines (sendRequestManually wNetBA wReqH).req.header wNetBA.keyOrder) ∧
    (sendRequestManually wNetBA wReqH).wrote =
      some (requestLine (sendRequestManually wNetBA wReqH).req ++
        String.join (headerLines (sendRequestManually wNetBA wReqH).req.header
          wNetBA.keyOrder) ++ "\r\n") ∧
    (headerLines (sendRequestManually wNetBA wReqH).req.header wNetBA.keyOrder).Perm
      (specOrderedHeaderLines (sendRequestManually wNetBA wReqH).req) :=
  manual_send_wire_format wNetBA wReqH rfl (by decide)

/-! ### Sanitizer lemmas -/

theorem removeProxyHeaders_header (ctx : ProxyCtx) (r : Request) :
    (removeProxyHeaders ctx r).header =
      (((r.header.del "Accept-Encoding").del "Proxy-Connection").del
        "Proxy-Authenticate").del "Proxy-Authorization" := by
  simp only [removeProxyHeaders]
  split <;> rfl

theorem removeProxyHeaders_get_connection (ctx : ProxyCtx) (r : Request) :
    (removeProxyHeaders ctx r).header.get "Connection" = r.header.get "Connection" := by
  rw [removeProxyHeaders_header]
  rw [Header.get_del_ne _ _ _ (by decide), Header.get_del_ne _ _ _ (by decide),
    Header.get_del_ne _ _ _ (by decide), Header.get_del_ne _ _ _ (by decide)]

theorem removeProxyHeaders_close (ctx : ProxyCtx) (r : Request)
    (hC : r.header.get "Connection" = "close") :
    (removeProxyHeaders ctx r).close = false := by
  simp only [removeProxyHeaders]
  split
  · rfl
  · rename_i hcond
    exfalso
    apply hcond
    show ((((r.header.del "Accept-Encoding").del "Proxy-Connection").del
        "Proxy-Authenticate").del "Proxy-Authorization").get "Connection" = "close"
    rw [Header.get_del_ne _ _ _ (by decide), Header.get_del_ne _ _ _ (by decide),
      Header.get_del_ne _ _ _ (by decide), Header.get_del_ne _ _ _ (by decide)]
    exact hC

theorem lookup_of_get_ne (h : Header) (k : String) (hne : h.get k ≠ "") :
    ∃ vs, h.entries.lookup k = some (h.get k :: vs) := by
  unfold Header.get at hne ⊢
  cases hl : h.entries.lookup k with
  | none => rw [hl] at hne; simp at hne
  | some vs =>
    cases vs with
    | nil => rw [hl] at hne; simp at hne
    | cons v vt =>
      exact ⟨vt, rfl⟩

theorem sendRequestManually_wroteLines (net : Network) (req : Request)
    (hD : net.dialOk = true) :
    (sendRequestManually net req).wroteLines =
      some (headerLines (sendRequestManually net req).req.header net.keyOrder) := by
  simp only [sendRequestManually, hD]
  cases hc : req.url.host.toList.contains ':' <;> cases hr : net.readResponse <;>
    simp [hc, hr, sendRequestManually, hD]

theorem sanitize_not_mem_filterRequest (hs : List ReqHandler) (r : Request)
    (ctx : ProxyCtx) : Ev.sanitize ∉ (filterRequest hs r ctx).events :=
  sanitize_not_mem_filterRequestGo r ctx hs 0 r

theorem sanitize_not_mem_filterResponse (hs : List RespHandler) (resp : Option Response)
    (ctx : ProxyCtx) : Ev.sanitize ∉ (filterResponse hs resp ctx).events :=
  sanitize_not_mem_filterResponseGo hs 0 resp ctx

theorem sanitize_not_mem_wsEvs (b : Bool) :
    Ev.sanitize ∉ (if b then [Ev.wsServe] else []) := by
  cases b <;> simp

/-- When `KeepHeader` is set, no dispatcher path emits the sanitize
step. -/
theorem sanitize_not_mem_serve (proxy : ProxyHttpServer) (isWS : Request → Bool)
    (net : Network) (s : Int) (rq : Request) (hK : proxy.KeepHeader = true) :
    Ev.sanitize ∉ outcomeEvents (ServeHTTP proxy isWS net s rq) := by
  unfold ServeHTTP
  by_cases hM : rq.method = "CONNECT"
  · simp [hM, outcomeEvents]
  by_cases hA : rq.url.scheme = ""
  · simp [hM, hA, outcomeEvents]
  simp only [if_neg hM, if_neg hA, outcomeEvents, proxyMain]
  cases hF : (filterRequest proxy.reqHandlers rq (newCtx rq s)).resp with
  | some c =>
    show Ev.sanitize ∉ (finishResponse proxy
      (filterRequest proxy.reqHandlers rq (newCtx rq s)).req (newCtx rq s)
      (filterRequest proxy.reqHandlers rq (newCtx rq s)).events (some c)).events
    rw [finishResponse_events]
    intro hmem
    rcases List.mem_append.mp hmem with hmem | hmem
    · exact sanitize_not_mem_filterRequest _ _ _ hmem
    · rcases List.mem_cons.mp hmem with hi | hmem
      · exact Ev.noConfusion hi
      · exact sanitize_not_mem_filterResponse _ _ _ hmem
  | none =>
    show Ev.sanitize ∉ (transportPhase proxy isWS net (newCtx rq s)
      (filterRequest proxy.reqHandlers rq (newCtx rq s))).events
    cases hres : ((newCtx rq s).RoundTrip net (sanitizedReq proxy (newCtx rq s)
        (filterRequest proxy.reqHandlers rq (newCtx rq s)).req)).result with
    | error e =>
      rw [transportPhase_err proxy isWS net (newCtx rq s) _ e hres, finishResponse_events, hK]
      intro hmem
      simp only [if_pos] at hmem
      rcases List.mem_append.mp hmem with hmem | hmem
      · rcases List.mem_append.mp hmem with hmem | hmem
        · rcases List.mem_append.mp hmem with hmem | hmem
          · rcases List.mem_append.mp hmem with hmem | hmem
            · rcases List.mem_append.mp hmem with hmem | hmem
              · exact sanitize_not_mem_filterRequest _ _ _ hmem
              · exact sanitize_not_mem_wsEvs _ hmem
            · simp at hmem
          · simp at hmem
        · rcases List.mem_cons.mp hmem with hi | hmem
          · exact Ev.noConfusion hi
          · exact sanitize_not_mem_filterResponse _ _ _ hmem
      · rcases List.mem_cons.mp hmem with hi | hmem
        · exact Ev.noConfusion hi
        · exact sanitize_not_mem_filterResponse _ _ _ hmem
    | ok resp =>
      rw [transportPhase_ok proxy isWS net (newCtx rq s) _ resp hres, finishResponse_events, hK]
      intro hmem
      simp only [if_pos] at hmem
      rcases List.mem_append.mp hmem with hmem | hmem
      · rcases List.mem_append.mp hmem with hmem | hmem
        · rcases List.mem_append.mp hmem with hmem | hmem
          · rcases List.mem_append.mp hmem with hmem | hmem
            · exact sanitize_not_mem_filterRequest _ _ _ hmem
            · exact sanitize_not_mem_wsEvs _ hmem
          · simp at hmem
        · simp at hmem
      · rcases List.mem_cons.mp hmem with hi | hmem
        · exact Ev.noConfusion hi
        · exact sanitize_not_mem_filterResponse _ _ _ hmem

/-- Claim C8: when the inbound request's `Connection` header value is
exactly `close`, the sanitizer clears the request's close-after-response
flag but does not delete the `Connection` header, so the serialized
request still carries the `Connection: close` header line; the dispatcher
hands transport the sanitized request exactly when `KeepHeader` is false,
and when `KeepHeader` is true the sanitizer is not invoked at all (no
sanitize step in any dispatcher trace). -/
theorem connection_close_handling (ctx : ProxyCtx) (r : Request) (net : Network)
    (hC : r.header.get "Connection" = "close")
    (hD : net.dialOk = true)
    (hP : net.keyOrder.Perm
      ((sendRequestManually net (removeProxyHeaders ctx r)).req.header.keys)) :
    (removeProxyHeaders ctx r).close = false ∧
    (removeProxyHeaders ctx r).header.get "Connection" = "close" ∧
    (∃ L, (sendRequestManually net (removeProxyHeaders ctx r)).wroteLines = some L ∧
      "Connection: close\r\n" ∈ L) ∧
    (∀ (proxy : ProxyHttpServer) (ctx2 : ProxyCtx) (rq : Request),
      proxy.KeepHeader = false → sanitizedReq proxy ctx2 rq = removeProxyHeaders ctx2 rq) ∧
    (∀ (proxy : ProxyHttpServer) (isWS : Request → Bool) (s : Int) (rq : Request),
      proxy.KeepHeader = true →
      Ev.sanitize ∉ outcomeEvents (ServeHTTP proxy isWS net s rq)) := by
  have hCrp : (removeProxyHeaders ctx r).header.get "Connection" = "close" := by
    rw [removeProxyHeaders_get_connection]
    exact hC
  refine ⟨removeProxyHeaders_close ctx r hC, hCrp, ?_, ?_, ?_⟩
  · obtain ⟨vs, hvs⟩ := lookup_of_get_ne (removeProxyHeaders ctx r).header "Connection"
      (by rw [hCrp]; decide)
    rw [hCrp] at hvs
    have hreq := sendRequestManually_req_eq net (removeProxyHeaders ctx r)
    have hh2 : (sendRequestManually net (removeProxyHeaders ctx r)).req.header =
        (removeProxyHeaders ctx r).header.set "Host"
          (removeProxyHeaders ctx r).url.hostname := by
      rw [hreq]
    have hlook2 : (sendRequestManually net
        (removeProxyHeaders ctx r)).req.header.entries.lookup "Connection" =
        some ("close" :: vs) := by
      rw [hh2, lookup_set_ne _ _ _ _ (by decide)]
      exact hvs
    have hkeys : "Connection" ∈
        (sendRequestManually net (removeProxyHeaders ctx r)).req.header.keys :=
      mem_keys_of_lookup _ _ _ hlook2
    have hkOrd : "Connection" ∈ net.keyOrder := hP.mem_iff.mpr hkeys
    have hvmem : "close" ∈ (sendRequestManually net
        (removeProxyHeaders ctx r)).req.header.lookupValues "Connection" := by
      unfold Header.lookupValues
      rw [hlook2]
      exact List.mem_cons_self _ _
    exact ⟨_, sendRequestManually_wroteLines net _ hD,
      mem_headerLines _ net.keyOrder "Connection" "close" hkOrd hvmem⟩
  · intro proxy ctx2 rq hk
    simp [sanitizedReq, hk]
  · intro proxy isWS s rq hk
    exact sanitize_not_mem_serve proxy isWS net s rq hk

/-- Witness for `connection_close_handling` at the `Connection: close`
fixture: the close flag is cleared, the header survives, the wire carries
the `Connection: close` line, and a `KeepHeader` server never emits the
sanitize step. -/
theorem connection_close_handling_witness :
    (removeProxyHeaders (newCtx wReqClose 1) wReqClose).close = false ∧
    (removeProxyHeaders (newCtx wReqClose 1) wReqClose).header.get "Connection" = "close" ∧
    (∃ L, (sendRequestManually wNetConn
        (removeProxyHeaders (newCtx wReqClose 1) wReqClose)).wroteLines = some L ∧
      "Connection: close\r\n" ∈ L) ∧
    sanitizedReq wProxy0 (newCtx wReqClose 1) wReqClose =
      removeProxyHeaders (newCtx wReqClose 1) wReqClose ∧
    Ev.sanitize ∉ outcomeEvents
      (ServeHTTP { KeepHeader := true } (fun _ => false) wNetConn 1 wReqClose) := by
  have h := connection_close_handling (newCtx wReqClose 1) wReqClose wNetConn
    rfl rfl (by decide)
  exact ⟨h.1, h.2.1, h.2.2.1, h.2.2.2.1 wProxy0 (newCtx wReqClose 1) wReqClose rfl,
    h.2.2.2.2 { KeepHeader := true } (fun _ => false) 1 wReqClose rfl⟩

/-- Claim C9: on the successful-transport path, before streaming, the
`Content-Length` header is deleted from the final response if and only if
the final response's body object identity differs from the body originally
read from the origin (a response filter substituted a new body); when the
body object is unchanged, the inherited `Content-Length` is kept. -/
theorem content_length_deletion_iff
    (proxy : ProxyHttpServer) (isWS : Request → Bool) (net : Network) (s : Int)
    (r : Request) (resp0 fr : Response)
    (hM : ¬ r.method = "CONNECT") (hA : ¬ r.url.scheme = "")
    (hF : (filterRequest proxy.reqHandlers r (newCtx r s)).resp = none)
    (hOk : ((newCtx r s).RoundTrip net (sanitizedReq proxy (newCtx r s)
      (filterRequest proxy.reqHandlers r (newCtx r s)).req)).result = .ok resp0)
    (hFR : (filterResponse proxy.respHandlers (some resp0) (newCtx r s)).resp = some fr) :
    ∃ out, ServeHTTP proxy isWS net s r = .proxied out ∧
      (fr.body = resp0.body → out.sent = some fr) ∧
      (fr.body ≠ resp0.body →
        out.sent = some { fr with header := fr.header.del "Content-Length" }) := by
  have hS := serveHTTP_proxied proxy isWS net s r hM hA
  have hpm : proxyMain proxy isWS net (newCtx r s) r =
      transportPhase proxy isWS net (newCtx r s)
        (filterRequest proxy.reqHandlers r (newCtx r s)) := by
    simp only [proxyMain]
    rw [hF]
  have hsent : (proxyMain proxy isWS net (newCtx r s) r).sent =
      some (if some resp0.body = some fr.body then fr
            else { fr with header := fr.header.del "Content-Length" }) := by
    rw [hpm, transportPhase_ok proxy isWS net (newCtx r s) _ resp0 hOk]
    simp only [finishResponse]
    rw [hFR]
    rfl
  refine ⟨_, hS, ?_, ?_⟩
  · intro h
    rw [hsent, if_pos (by rw [h])]
  · intro h
    rw [hsent, if_neg (fun hh => h (Option.some.inj hh).symm)]

/-- Witness for `content_length_deletion_iff`: a body-swapping filter
makes the dispatcher delete `Content-Length`; an identity filter keeps
it. -/
theorem content_length_deletion_iff_witness :
    (∃ out, ServeHTTP wProxySwap (fun _ => false) wNetCL 1 wReq = .proxied out ∧
      out.sent = some { wRespSwapped with
        header := wRespSwapped.header.del "Content-Length" }) ∧
    (∃ out, ServeHTTP wProxyId (fun _ => false) wNetCL 1 wReq = .proxied out ∧
      out.sent = some wRespCL) := by
  constructor
  · obtain ⟨out, h1, _, h3⟩ := content_length_deletion_iff wProxySwap (fun _ => false)
      wNetCL 1 wReq wRespCL wRespSwapped (by decide) (by decide) rfl rfl rfl
    exact ⟨out, h1, h3 (by decide)⟩
  · obtain ⟨out, h1, h2, _⟩ := content_length_deletion_iff wProxyId (fun _ => false)
      wNetCL 1 wReq wRespCL wRespCL (by decide) (by decide) rfl rfl rfl
    exact ⟨out, h1, h2 rfl⟩
